import Mathlib

/-!
Verification of the iRouter partition-pruning core.

Shallow embedding of:
  * `src/irouter/core/types.py` (Predicate, evaluate, PruningResult)
  * `src/irouter/sqlglot/parser.py` (predicate extraction)
  * `src/irouter/optimizer/partition_pruning.py` (discovery, filtering, prune)
  * the result cache (modelled from the spec; its implementation is not in src/)

Python runtime values that flow through `Predicate.evaluate` are modelled by
`PyVal`; Python comparison semantics (which may raise `TypeError` on
incomparable values) are modelled by `Option Bool`-valued comparison
functions, where `Option.none` stands for a raised exception.  A fallible
Python call is modelled with `Except Unit`.
-/

namespace IRouter

/-- Model of the Python values that reach `Predicate.evaluate`:
strings, ints, floats (modelled as rationals), bools, `None`,
`datetime` objects (modelled by an order-preserving integer key
`year*10000 + month*100 + day`), and lists. -/
inductive PyVal where
  | str (s : String)
  | int (n : Int)
  | float (q : ℚ)
  | bool (b : Bool)
  | none
  | datetime (ordKey : Int)
  | list (vs : List PyVal)

/-- Python's implicit numeric tower for comparisons: ints, floats and bools
compare numerically with each other.  Non-numeric values give `Option.none`. -/
def toRat? : PyVal → Option ℚ
  | .int n => some (n : ℚ)
  | .float q => some q
  | .bool b => some (if b then 1 else 0)
  | _ => Option.none

/-- The integral values of the numeric tower (ints and bools); comparisons
between them stay in ℤ. -/
def toIntVal? : PyVal → Option Int
  | .int n => some n
  | .bool b => some (if b then 1 else 0)
  | _ => Option.none

/-- Code-point lexicographic order on character lists (Python string `<`). -/
def ltChars : List Char → List Char → Bool
  | [], [] => false
  | [], _ :: _ => true
  | _ :: _, [] => false
  | a :: as, b :: bs => if a < b then true else if b < a then false else ltChars as bs

mutual
/-- Python `==` on the modelled values (total; `==` between unrelated
types yields `False`, it does not raise). -/
def pyEq : PyVal → PyVal → Bool
  | .str a, .str b => a == b
  | .datetime a, .datetime b => a == b
  | .none, .none => true
  | .list xs, .list ys => pyEqList xs ys
  | a, b =>
    match toIntVal? a, toIntVal? b with
    | some x, some y => x == y
    | _, _ =>
      match toRat? a, toRat? b with
      | some x, some y => x == y
      | _, _ => false

/-- Python `==` on lists: elementwise, equal lengths. -/
def pyEqList : List PyVal → List PyVal → Bool
  | [], [] => true
  | x :: xs, y :: ys => pyEq x y && pyEqList xs ys
  | _, _ => false
end

mutual
/-- Python `<` on the modelled values; `Option.none` models a raised
`TypeError` between incomparable types. -/
def pyLt : PyVal → PyVal → Option Bool
  | .str a, .str b => some (ltChars a.data b.data)
  | .datetime a, .datetime b => some (decide (a < b))
  | .list xs, .list ys => pyLtList xs ys
  | a, b =>
    match toIntVal? a, toIntVal? b with
    | some x, some y => some (decide (x < y))
    | _, _ =>
      match toRat? a, toRat? b with
      | some x, some y => some (decide (x < y))
      | _, _ => Option.none

/-- Python `<` on lists: lexicographic, first unequal position decides. -/
def pyLtList : List PyVal → List PyVal → Option Bool
  | [], [] => some false
  | [], _ :: _ => some true
  | _ :: _, [] => some false
  | x :: xs, y :: ys => if pyEq x y then pyLtList xs ys else pyLt x y
end

/-- Substring test on character lists (Python `needle in haystack` for
strings). -/
def isSubstr (needle : List Char) : List Char → Bool
  | [] => needle.isEmpty
  | c :: t => needle.isPrefixOf (c :: t) || isSubstr needle t

/-- Python `x in container`; `Option.none` models `TypeError` when the
container is not iterable (or a string container with a non-string item). -/
def pyIn (x : PyVal) : PyVal → Option Bool
  | .list ys => some (ys.any (fun y => pyEq x y))
  | .str t =>
    match x with
    | .str s => some (isSubstr s.toList t.toList)
    | _ => Option.none
  | _ => Option.none

/-- The `PredicateOperator` enum from `core/types.py`. -/
inductive PredicateOperator where
  | EQ | NEQ | GT | GTE | LT | LTE
  | IN | NOT_IN | LIKE | IS_NULL | IS_NOT_NULL
deriving DecidableEq, Repr

/-- The `Predicate` dataclass from `core/types.py`. -/
structure Predicate where
  column : String
  operator : PredicateOperator
  value : PyVal
  sql_type : Option String := Option.none

/-- Truncation toward zero, as Python's `int(float)`. -/
def ratTrunc (q : ℚ) : Int := if q < 0 then -((-q).floor) else q.floor

/-- Digit-string to number (all characters must be digits, nonempty). -/
def parseDigits : List Char → Option Nat
  | [] => Option.none
  | cs =>
    if cs.all Char.isDigit then
      some (cs.foldl (fun a c => a * 10 + (c.toNat - 48)) 0)
    else Option.none

/-- Whitespace stripped by Python's numeric constructors. -/
def isPySpace (c : Char) : Bool := c = ' ' || c = '\t' || c = '\n' || c = '\r'

/-- Strip leading and trailing whitespace from a character list. -/
def trimChars (cs : List Char) : List Char :=
  ((cs.dropWhile isPySpace).reverse.dropWhile isPySpace).reverse

/-- Python `int(str)`: optional surrounding whitespace, optional sign,
decimal digits; anything else raises (modelled by `Option.none`). -/
def pyIntOfString (s : String) : Option Int :=
  match trimChars s.data with
  | '-' :: rest => (parseDigits rest).map (fun n => -(n : Int))
  | '+' :: rest => (parseDigits rest).map (fun n => (n : Int))
  | cs => (parseDigits cs).map (fun n => (n : Int))

/-- Python `int(value)`: ints pass through, bools are 0/1, floats truncate,
strings parse; other types raise. -/
def pyToInt : PyVal → Option Int
  | .int n => some n
  | .bool b => some (if b then 1 else 0)
  | .float q => some (ratTrunc q)
  | .str s => pyIntOfString s
  | _ => Option.none

/-- Python `float(str)` on plain decimal notation (optional sign, digits,
optional fractional part); exponents and specials are outside the fragment
the program exercises and are modelled as failures. -/
def pyFloatOfString (s : String) : Option ℚ :=
  let parseBody : List Char → Option ℚ := fun cs =>
    let intPart := cs.takeWhile Char.isDigit
    let rest := cs.dropWhile Char.isDigit
    match rest with
    | [] => (parseDigits intPart).map (fun n => (n : ℚ))
    | '.' :: fracPart =>
      if fracPart.all Char.isDigit && !(intPart.isEmpty && fracPart.isEmpty) then
        let ip : Nat := intPart.foldl (fun a c => a * 10 + (c.toNat - 48)) 0
        let fp : Nat := fracPart.foldl (fun a c => a * 10 + (c.toNat - 48)) 0
        some ((ip : ℚ) + (fp : ℚ) / ((10 : ℚ) ^ fracPart.length))
      else Option.none
    | _ => Option.none
  match trimChars s.data with
  | '-' :: rest => (parseBody rest).map (fun q => -q)
  | '+' :: rest => parseBody rest
  | cs => parseBody cs

/-- Python `float(value)`. -/
def pyToFloat : PyVal → Option ℚ
  | .int n => some (n : ℚ)
  | .bool b => some (if b then 1 else 0)
  | .float q => some q
  | .str s => pyFloatOfString s
  | _ => Option.none

/-- Number of days in a month (Gregorian), for ISO-date validation. -/
def daysInMonth (y m : Nat) : Nat :=
  if m == 2 then
    if (y % 4 == 0 && y % 100 != 0) || y % 400 == 0 then 29 else 28
  else if m == 4 || m == 6 || m == 9 || m == 11 then 30 else 31

/-- Model of `datetime.fromisoformat` on the `YYYY-MM-DD` shape the program feeds it
(partition values and SQL date literals); the result is the order-preserving
key `y*10000 + m*100 + d`.  Other shapes raise. -/
def parseISODate (s : String) : Option Int :=
  match s.toList with
  | [y1, y2, y3, y4, '-', m1, m2, '-', d1, d2] =>
    if [y1, y2, y3, y4, m1, m2, d1, d2].all Char.isDigit then
      let y := ((y1.toNat - 48) * 10 + (y2.toNat - 48)) * 100 +
               ((y3.toNat - 48) * 10 + (y4.toNat - 48))
      let m := (m1.toNat - 48) * 10 + (m2.toNat - 48)
      let d := (d1.toNat - 48) * 10 + (d2.toNat - 48)
      if 1 ≤ y && 1 ≤ m && m ≤ 12 && 1 ≤ d && d ≤ daysInMonth y m then
        some ((y * 10000 + m * 100 + d : Nat) : Int)
      else Option.none
    else Option.none
  | _ => Option.none

/-- Model of `sep.join(parts)`. -/
def strIntercalate (sep : String) : List String → String
  | [] => ""
  | [s] => s
  | s :: rest => s ++ sep ++ strIntercalate sep rest

mutual
/-- Python `str(value)` for the modelled values. -/
def pyStr : PyVal → String
  | .str s => s
  | v => pyRepr v

/-- Python `repr(value)` (used by `str` on list elements). -/
def pyRepr : PyVal → String
  | .str s => String.singleton (Char.ofNat 39) ++ s ++ String.singleton (Char.ofNat 39)
  | .int n => toString n
  | .float q => toString q
  | .bool b => if b then "True" else "False"
  | .none => "None"
  | .datetime d => toString d
  | .list vs => "[" ++ strIntercalate ", " (pyReprList vs) ++ "]"

/-- Python `repr` mapped over a list of values. -/
def pyReprList : List PyVal → List String
  | [] => []
  | v :: vs => pyRepr v :: pyReprList vs
end

/-- The date/timestamp branch of `_convert_types`: strings are parsed with
`fromisoformat` (may raise), non-strings pass through unchanged. -/
def convDate : PyVal → Option PyVal
  | .str s => (parseISODate s).map PyVal.datetime
  | v => some v

/-- Substring containment on strings (Python `"KEY" in sql_type_upper`). -/
def strContains (hay key : String) : Bool := isSubstr key.data hay.data

/-- Model of `str.upper()` (ASCII fragment, which covers SQL type names). -/
def strUpper (s : String) : String := ⟨s.data.map Char.toUpper⟩

/-- Model of `s.endswith(t)`. -/
def strEndsWith (s t : String) : Bool := t.data.reverse.isPrefixOf s.data.reverse

/-- Model of `s.startswith(t)`. -/
def strStartsWith (s t : String) : Bool := t.data.isPrefixOf s.data

/-- The `Predicate._convert_types` method from `core/types.py`: branch on the declared
SQL type (substring tests on its uppercase form, in source order), convert
both sides; `Option.none` models a raised conversion error. -/
def convertTypes (sqlType : String) (pv cv : PyVal) : Option (PyVal × PyVal) :=
  let u := strUpper sqlType
  if strContains u "DATE" || strContains u "TIMESTAMP" then
    match convDate pv, convDate cv with
    | some a, some b => some (a, b)
    | _, _ => Option.none
  else if strContains u "INT" || strContains u "BIGINT" then
    match pyToInt pv, pyToInt cv with
    | some a, some b => some (.int a, .int b)
    | _, _ => Option.none
  else if strContains u "FLOAT" || strContains u "DOUBLE" || strContains u "DECIMAL" then
    match pyToFloat pv, pyToFloat cv with
    | some a, some b => some (.float a, .float b)
    | _, _ => Option.none
  else
    some (.str (pyStr pv), .str (pyStr cv))

/-- The operator dispatch inside `evaluate`'s `try` block: a comparison
that raises is caught and yields `true`; operators outside the dispatch
table (`LIKE`, `IS NULL`, `IS NOT NULL`) fall to the conservative
`return True`. -/
def applyOp (op : PredicateOperator) (a b : PyVal) : Bool :=
  match op with
  | .EQ => pyEq a b
  | .NEQ => !(pyEq a b)
  | .GT => (pyLt b a).getD true
  | .GTE => ((pyLt a b).map (fun r => !r)).getD true
  | .LT => (pyLt a b).getD true
  | .LTE => ((pyLt b a).map (fun r => !r)).getD true
  | .IN => (pyIn a b).getD true
  | .NOT_IN => ((pyIn a b).map (fun r => !r)).getD true
  | _ => true

/-- The `Predicate.evaluate` method from `core/types.py`.  The type conversion runs
BEFORE the `try` block, so a conversion failure escapes as an exception
(`.error ()`); only comparison failures are caught (inside `applyOp`).
The `if self.sql_type:` guard is Python truthiness: `None` and `""` skip
conversion. -/
def Predicate.evaluate (p : Predicate) (partition_value : PyVal) : Except Unit Bool :=
  match p.sql_type with
  | Option.none => .ok (applyOp p.operator partition_value p.value)
  | some t =>
    if t = "" then .ok (applyOp p.operator partition_value p.value)
    else
      match convertTypes t partition_value p.value with
      | some (pv, cv) => .ok (applyOp p.operator pv cv)
      | Option.none => .error ()

/-- The `PartitionInfo` dataclass from `core/types.py` (the fields discovery
fills; `row_count`/`column_stats` keep their defaults and play no role in
pruning). -/
structure PartitionInfo where
  path : String
  partition_key : String
  partition_value : String
  size_bytes : Nat
  file_count : Nat
deriving DecidableEq, Repr

/-- The `PredicateExtractionResult` dataclass from `core/types.py`. -/
structure PredicateExtractionResult where
  predicates : List Predicate
  table_name : String
  is_complex : Bool

/-- Method `PredicateExtractionResult.get_partition_predicates`. -/
def PredicateExtractionResult.get_partition_predicates
    (e : PredicateExtractionResult) (partition_key : String) : List Predicate :=
  e.predicates.filter (fun p => p.column = partition_key)

/-- The `PruningResult` dataclass from `core/types.py`; float-valued fields are
modelled over ℚ. -/
structure PruningResult where
  partitions_to_scan : List PartitionInfo
  total_partitions : Nat
  total_size_bytes : Nat
  total_files : Nat
  predicates_applied : List Predicate := []
  pruning_time_sec : ℚ := 0
  estimated_rows : Option Nat := Option.none

/-- Property `PruningResult.partitions_scanned`. -/
def PruningResult.partitions_scanned (r : PruningResult) : Nat :=
  r.partitions_to_scan.length

/-- Property `PruningResult.pruning_ratio`: `0.0` when there are no partitions,
else `1 - scanned/total`. -/
def PruningResult.pruning_ratio (r : PruningResult) : ℚ :=
  if r.total_partitions = 0 then 0
  else 1 - ((r.partitions_scanned : ℚ) / (r.total_partitions : ℚ))

/-- Property `PruningResult.speedup_estimate`: `1.0` when nothing is scanned,
else `total/scanned`. -/
def PruningResult.speedup_estimate (r : PruningResult) : ℚ :=
  if r.partitions_scanned = 0 then 1
  else (r.total_partitions : ℚ) / (r.partitions_scanned : ℚ)

/-! ## Partition pruner (`optimizer/partition_pruning.py`) -/

/-- One immediate child of the table root, as the filesystem reports it:
its name, whether it is a directory, and the (name, size) pairs of the
plain files inside it. -/
structure FSEntry where
  name : String
  isDir : Bool
  files : List (String × Nat)

/-- Model of `name.split('=', 1)`: split at the first `'='`; `Option.none` when the
name holds no `'='`. -/
def splitEq (name : String) : Option (String × String) :=
  let cs := name.toList
  if cs.contains '=' then
    some (⟨cs.takeWhile (fun c => c ≠ '=')⟩, ⟨(cs.dropWhile (fun c => c ≠ '=')).tail⟩)
  else Option.none

/-- Model of `partition_dir.glob("*.parquet")`: plain files whose name ends in
`.parquet` and does not start with a dot (glob `*` skips hidden files). -/
def parquetFilesOf (e : FSEntry) : List (String × Nat) :=
  e.files.filter (fun f => strEndsWith f.1 ".parquet" && !(strStartsWith f.1 "."))

/-- The per-entry body of the discovery loop: skip non-directories, names
without `'='`, and partitions holding zero parquet files; otherwise build a
`PartitionInfo`. -/
def discoverEntry (tablePath : String) (e : FSEntry) : Option PartitionInfo :=
  if !e.isDir then Option.none
  else
    match splitEq e.name with
    | Option.none => Option.none
    | some (k, v) =>
      let pq := parquetFilesOf e
      if pq.isEmpty then Option.none
      else some
        { path := tablePath ++ "/" ++ e.name
          partition_key := k
          partition_value := v
          size_bytes := (pq.map Prod.snd).sum
          file_count := pq.length }

/-- Method `PartitionPruner._discover_partitions`.  The filesystem state under the
table root is `Option (List FSEntry)`: `Option.none` models a non-existent
root, for which the source raises `FileNotFoundError` (modelled as
`.error ()`). -/
def discoverPartitions (tablePath : String) :
    Option (List FSEntry) → Except Unit (List PartitionInfo)
  | Option.none => .error ()
  | some entries => .ok (entries.filterMap (discoverEntry tablePath))

/-- Method `PartitionPruner._partition_matches`: predicates in order; the first
`False` excludes; an exception from `evaluate` propagates. -/
def partitionMatches (partition : PartitionInfo) :
    List Predicate → Except Unit Bool
  | [] => .ok true
  | q :: rest =>
    match q.evaluate (.str partition.partition_value) with
    | .error err => .error err
    | .ok b => if b then partitionMatches partition rest else .ok false

/-- Method `PartitionPruner._filter_partitions`: keep a partition when no
extracted predicate targets its partition key, or when it satisfies all
that do; an exception raised while checking a partition propagates. -/
def filterPartitions (partitions : List PartitionInfo)
    (extraction : PredicateExtractionResult) : Except Unit (List PartitionInfo) :=
  match partitions with
  | [] => .ok []
  | p :: rest =>
    let relevant := extraction.get_partition_predicates p.partition_key
    if relevant.isEmpty then
      match filterPartitions rest extraction with
      | .error err => .error err
      | .ok tail => .ok (p :: tail)
    else
      match partitionMatches p relevant with
      | .error err => .error err
      | .ok m =>
        match filterPartitions rest extraction with
        | .error err => .error err
        | .ok tail => .ok (if m then p :: tail else tail)

/-- Step 5 of `PartitionPruner.prune`: scan everything when nothing was
extracted or the clause is complex, else filter. -/
def pruneSelect (extraction : PredicateExtractionResult)
    (all_partitions : List PartitionInfo) : Except Unit (List PartitionInfo) :=
  if extraction.predicates.isEmpty || extraction.is_complex then
    .ok all_partitions
  else
    filterPartitions all_partitions extraction

/-! ## SQL analyzer (`sqlglot/parser.py`)

The external parsing/optimization library is a black box that hands
`extract_predicates` a typed expression tree; the spec (§6) fixes the tree
interface: conjunction/disjunction/negation nodes, comparison nodes with
left/right operands, column references with an optional table qualifier,
and literal/tuple/null/boolean leaves.  `SqlExpr` embeds that interface;
`func` stands for every other expression shape (function calls,
subqueries, ...), carrying only what `str()` needs. -/

inductive SqlExpr where
  | and (l r : SqlExpr)
  | or (l r : SqlExpr)
  | not (e : SqlExpr)
  | eq (l r : SqlExpr)
  | neq (l r : SqlExpr)
  | gt (l r : SqlExpr)
  | gte (l r : SqlExpr)
  | lt (l r : SqlExpr)
  | lte (l r : SqlExpr)
  | inExpr (l r : SqlExpr)
  | like (l r : SqlExpr)
  | column (name : String) (table : Option String) (ty : Option String)
  | lit (v : String)
  | tuple (es : List SqlExpr)
  | null
  | boolean (b : Bool)
  | func (name : String) (args : List SqlExpr)

/-- ASCII single quote, for SQL text rendering. -/
def sqChar : String := String.singleton (Char.ofNat 39)

mutual
/-- Python `str(expression)`: the SQL text of a node (the textual form the
extractor falls back to for unrecognized right-hand shapes). -/
def textOf : SqlExpr → String
  | .and l r => textOf l ++ " AND " ++ textOf r
  | .or l r => textOf l ++ " OR " ++ textOf r
  | .not e => "NOT " ++ textOf e
  | .eq l r => textOf l ++ " = " ++ textOf r
  | .neq l r => textOf l ++ " <> " ++ textOf r
  | .gt l r => textOf l ++ " > " ++ textOf r
  | .gte l r => textOf l ++ " >= " ++ textOf r
  | .lt l r => textOf l ++ " < " ++ textOf r
  | .lte l r => textOf l ++ " <= " ++ textOf r
  | .inExpr l r => textOf l ++ " IN " ++ textOf r
  | .like l r => textOf l ++ " LIKE " ++ textOf r
  | .column name tbl _ =>
    match tbl with
    | some t => t ++ "." ++ name
    | Option.none => name
  | .lit v => sqChar ++ v ++ sqChar
  | .tuple es => "(" ++ strIntercalate ", " (textOfList es) ++ ")"
  | .null => "NULL"
  | .boolean b => if b then "TRUE" else "FALSE"
  | .func name args => name ++ "(" ++ strIntercalate ", " (textOfList args) ++ ")"

/-- SQL text of each expression in a list. -/
def textOfList : List SqlExpr → List String
  | [] => []
  | e :: es => textOf e :: textOfList es
end

mutual
/-- Model of `expression.walk()`: every node of the tree, root first. -/
def nodes : SqlExpr → List SqlExpr
  | .and l r => .and l r :: (nodes l ++ nodes r)
  | .or l r => .or l r :: (nodes l ++ nodes r)
  | .not e => .not e :: nodes e
  | .eq l r => .eq l r :: (nodes l ++ nodes r)
  | .neq l r => .neq l r :: (nodes l ++ nodes r)
  | .gt l r => .gt l r :: (nodes l ++ nodes r)
  | .gte l r => .gte l r :: (nodes l ++ nodes r)
  | .lt l r => .lt l r :: (nodes l ++ nodes r)
  | .lte l r => .lte l r :: (nodes l ++ nodes r)
  | .inExpr l r => .inExpr l r :: (nodes l ++ nodes r)
  | .like l r => .like l r :: (nodes l ++ nodes r)
  | .tuple es => .tuple es :: nodesList es
  | .func name args => .func name args :: nodesList args
  | e => [e]

/-- The `walk` traversal over a list of child expressions. -/
def nodesList : List SqlExpr → List SqlExpr
  | [] => []
  | e :: es => nodes e ++ nodesList es
end

/-- Model of `isinstance(node, (exp.Or, exp.Not))`. -/
def isOrNotNode : SqlExpr → Bool
  | .or _ _ => true
  | .not _ => true
  | _ => false

/-- Method `SQLParser._has_or_not`: walk the tree, return true at the first
disjunction or negation node. -/
def hasOrNot (expression : SqlExpr) : Bool :=
  (nodes expression).any isOrNotNode

mutual
/-- Method `SQLParser._extract_value`: literal payload, tuple of extracted values,
`None` for NULL, bool for booleans; any other shape becomes its SQL text.
(In sqlglot, `Literal.this` is the payload *string* for both string and
number literals.) -/
def extractValue : SqlExpr → PyVal
  | .lit v => .str v
  | .tuple es => .list (extractValueList es)
  | .null => .none
  | .boolean b => .bool b
  | e => .str (textOf e)

/-- Method `_extract_value` mapped over tuple elements. -/
def extractValueList : List SqlExpr → List PyVal
  | [] => []
  | e :: es => extractValue e :: extractValueList es
end

/-- Method `SQLParser._build_predicate`: the left operand must be a column
reference; a column qualified to a different table than the filter is
dropped; the right operand becomes the value via `_extract_value`; the
column's annotated type (when present) becomes `sql_type`. -/
def buildPredicate (left right : SqlExpr) (operator : PredicateOperator)
    (table_filter : Option String) : Option Predicate :=
  match left with
  | .column name tbl ty =>
    match table_filter, tbl with
    | some tf, some t =>
      if t ≠ tf then Option.none
      else some { column := name, operator := operator, value := extractValue right, sql_type := ty }
    | _, _ => some { column := name, operator := operator, value := extractValue right, sql_type := ty }
  | _ => Option.none

/-- Method `SQLParser._extract_simple_predicates`: flatten AND chains; map the
closed comparison table (EQ, NEQ, GT, GTE, LT, LTE, IN) through
`_build_predicate`; every other node kind contributes nothing. -/
def extractSimplePredicates (expression : SqlExpr)
    (table_filter : Option String) : List Predicate :=
  match expression with
  | .and l r =>
    extractSimplePredicates l table_filter ++ extractSimplePredicates r table_filter
  | .eq l r => (buildPredicate l r .EQ table_filter).toList
  | .neq l r => (buildPredicate l r .NEQ table_filter).toList
  | .gt l r => (buildPredicate l r .GT table_filter).toList
  | .gte l r => (buildPredicate l r .GTE table_filter).toList
  | .lt l r => (buildPredicate l r .LT table_filter).toList
  | .lte l r => (buildPredicate l r .LTE table_filter).toList
  | .inExpr l r => (buildPredicate l r .IN table_filter).toList
  | _ => []

/-- Method `SQLParser.extract_predicates`: no WHERE clause gives the empty,
non-complex result; otherwise predicates come from the AND-chain
flattening and `is_complex` from the OR/NOT walk. -/
def extractPredicates (whereClause : Option SqlExpr)
    (table_name : Option String) : PredicateExtractionResult :=
  match whereClause with
  | Option.none =>
    { predicates := [], table_name := table_name.getD "", is_complex := false }
  | some condition =>
    { predicates := extractSimplePredicates condition table_name
      table_name := table_name.getD ""
      is_complex := hasOrNot condition }

/-- Method `PartitionPruner.prune`, downstream of the external parse/optimize
steps: extract predicates from the (already optimized) WHERE clause,
discover partitions under `data_path/table_name`, select, and aggregate
totals over the selected partitions.  Wall-clock timing is diagnostic
only and not modelled. -/
def prune (whereClause : Option SqlExpr) (table_name : String)
    (data_path : String) (fs : Option (List FSEntry)) : Except Unit PruningResult := do
  let extraction := extractPredicates whereClause (some table_name)
  let all_partitions ← discoverPartitions (data_path ++ "/" ++ table_name) fs
  let matching ← pruneSelect extraction all_partitions
  .ok { partitions_to_scan := matching
        total_partitions := all_partitions.length
        total_size_bytes := (matching.map PartitionInfo.size_bytes).sum
        total_files := (matching.map PartitionInfo.file_count).sum
        predicates_applied := extraction.predicates }

/-! ## Result cache

Modelled from the spec: the result cache implementation is not under
`src/` (only the CLI and `QueryEngine` callers reference it).  Spec §4.4:
a capacity-bounded store; insertion beyond capacity evicts the
least-recently-used entry and increments the eviction counter.  `entries`
is kept in recency order, most recently used first. -/
structure Cache (α : Type) where
  max_size : Nat
  entries : List (String × α) := []
  evictions : Nat := 0

/-- Modelled from the spec: `put(fingerprint, result)`.  An existing entry
for the fingerprint is replaced (and becomes most recent); a fresh insert
at capacity first evicts the least-recently-used entry (the last of the
recency list) and counts the eviction. -/
def Cache.put (c : Cache α) (fingerprint : String) (v : α) : Cache α :=
  let rest := c.entries.filter (fun e => e.1 ≠ fingerprint)
  if c.max_size ≤ rest.length then
    { c with entries := (fingerprint, v) :: rest.dropLast, evictions := c.evictions + 1 }
  else
    { c with entries := (fingerprint, v) :: rest }

/-- Sequence of `put` calls. -/
def Cache.putAll (c : Cache α) (l : List (String × α)) : Cache α :=
  l.foldl (fun acc fv => acc.put fv.1 fv.2) c

/-- The empty cache of a given capacity. -/
def Cache.empty (α : Type) (max_size : Nat) : Cache α :=
  { max_size := max_size }

/-! ## Example scenario from the spec (§8) -/

/-- The spec example WHERE clause
`date >= '2024-11-03' AND date <= '2024-11-05'` as the optimized tree
handed to `extract_predicates`. -/
def exampleSalesWhere : SqlExpr :=
  .and (.gte (.column "date" Option.none Option.none) (.lit "2024-11-03"))
       (.lte (.column "date" Option.none Option.none) (.lit "2024-11-05"))

/-- The spec example layout: seven partitions `date=2024-11-01 ..
date=2024-11-07`, one parquet file in each. -/
def exampleSalesFS : List FSEntry :=
  [ { name := "date=2024-11-01", isDir := true, files := [("part-0.parquet", 100)] },
    { name := "date=2024-11-02", isDir := true, files := [("part-0.parquet", 100)] },
    { name := "date=2024-11-03", isDir := true, files := [("part-0.parquet", 100)] },
    { name := "date=2024-11-04", isDir := true, files := [("part-0.parquet", 100)] },
    { name := "date=2024-11-05", isDir := true, files := [("part-0.parquet", 100)] },
    { name := "date=2024-11-06", isDir := true, files := [("part-0.parquet", 100)] },
    { name := "date=2024-11-07", isDir := true, files := [("part-0.parquet", 100)] } ]

/-- The closed comparison table of `_extract_simple_predicates`
(`exp.EQ/NEQ/GT/GTE/LT/LTE/In`), as an index for stating C5 uniformly. -/
inductive CompKind where
  | keq | kneq | kgt | kgte | klt | klte | kin
deriving DecidableEq

/-- The AST node of each tabled comparison kind. -/
def mkComp : CompKind → SqlExpr → SqlExpr → SqlExpr
  | .keq, l, r => .eq l r
  | .kneq, l, r => .neq l r
  | .kgt, l, r => .gt l r
  | .kgte, l, r => .gte l r
  | .klt, l, r => .lt l r
  | .klte, l, r => .lte l r
  | .kin, l, r => .inExpr l r

/-- The `PredicateOperator` each tabled comparison kind maps to. -/
def opOfKind : CompKind → PredicateOperator
  | .keq => .EQ
  | .kneq => .NEQ
  | .kgt => .GT
  | .kgte => .GTE
  | .klt => .LT
  | .klte => .LTE
  | .kin => .IN

/-- Column-reference test on the modelled AST. -/
def isColumnExpr : SqlExpr → Bool
  | .column _ _ _ => true
  | _ => false

/-- The right-hand shapes `_extract_value` recognizes specially. -/
def isValueLeaf : SqlExpr → Bool
  | .lit _ => true
  | .tuple _ => true
  | .null => true
  | .boolean _ => true
  | _ => false

/-! ## Helper lemmas -/

/-- Lemma: `_partition_matches` answers `True` exactly when every predicate in the
list evaluates (without raising) to `True`. -/
theorem partitionMatches_ok_true_iff (p : PartitionInfo) (preds : List Predicate) :
    partitionMatches p preds = .ok true ↔
      ∀ q ∈ preds, q.evaluate (.str p.partition_value) = .ok true := by
  induction preds with
  | nil => simp [partitionMatches]
  | cons q rest ih =>
    rw [partitionMatches]
    constructor
    · intro h
      cases hq : q.evaluate (.str p.partition_value) with
      | error err => rw [hq] at h; cases h
      | ok b =>
        rw [hq] at h
        cases b with
        | false => simp at h
        | true =>
          simp only [if_true] at h
          intro q' hq'
          rcases List.mem_cons.mp hq' with rfl | hmem
          · exact hq
          · exact (ih.mp h) q' hmem
    · intro h
      have hq := h q (List.mem_cons_self q rest)
      rw [hq]
      simp only [if_true]
      exact ih.mpr (fun q' hq' => h q' (List.mem_cons_of_mem q hq'))

/-- Membership in the output of `_filter_partitions` (when it finishes
without raising): kept iff present in the input and either no predicate
targets the partition key or the partition satisfies all of them. -/
theorem filterPartitions_mem_iff (parts : List PartitionInfo)
    (e : PredicateExtractionResult) (res : List PartitionInfo)
    (h : filterPartitions parts e = .ok res) (p : PartitionInfo) :
    p ∈ res ↔ p ∈ parts ∧
      ((e.get_partition_predicates p.partition_key).isEmpty = true ∨
        partitionMatches p (e.get_partition_predicates p.partition_key) = .ok true) := by
  induction parts generalizing res with
  | nil =>
    rw [filterPartitions] at h
    cases h
    simp
  | cons hd tl ih =>
    rw [filterPartitions] at h
    by_cases hemp : (e.get_partition_predicates hd.partition_key).isEmpty = true
    · rw [if_pos hemp] at h
      cases htl : filterPartitions tl e with
      | error err => rw [htl] at h; cases h
      | ok tail =>
        rw [htl] at h
        cases h
        have hiff := ih tail htl
        constructor
        · intro hp
          rcases List.mem_cons.mp hp with rfl | hp'
          · exact ⟨List.mem_cons_self _ _, Or.inl hemp⟩
          · obtain ⟨hmem, hc⟩ := hiff.mp hp'
            exact ⟨List.mem_cons_of_mem _ hmem, hc⟩
        · rintro ⟨hmem, hc⟩
          rcases List.mem_cons.mp hmem with rfl | hmem'
          · exact List.mem_cons_self _ _
          · exact List.mem_cons_of_mem _ (hiff.mpr ⟨hmem', hc⟩)
    · rw [if_neg hemp] at h
      cases hm : partitionMatches hd (e.get_partition_predicates hd.partition_key) with
      | error err => rw [hm] at h; cases h
      | ok m =>
        rw [hm] at h
        cases htl : filterPartitions tl e with
        | error err => rw [htl] at h; cases h
        | ok tail =>
          rw [htl] at h
          cases h
          have hiff := ih tail htl
          cases m with
          | true =>
            simp only [if_true]
            constructor
            · intro hp
              rcases List.mem_cons.mp hp with rfl | hp'
              · exact ⟨List.mem_cons_self _ _, Or.inr hm⟩
              · obtain ⟨hmem, hc⟩ := hiff.mp hp'
                exact ⟨List.mem_cons_of_mem _ hmem, hc⟩
            · rintro ⟨hmem, hc⟩
              rcases List.mem_cons.mp hmem with rfl | hmem'
              · exact List.mem_cons_self _ _
              · exact List.mem_cons_of_mem _ (hiff.mpr ⟨hmem', hc⟩)
          | false =>
            rw [if_neg (by simp)]
            constructor
            · intro hp
              obtain ⟨hmem, hc⟩ := hiff.mp hp
              exact ⟨List.mem_cons_of_mem _ hmem, hc⟩
            · rintro ⟨hmem, hc⟩
              rcases List.mem_cons.mp hmem with rfl | hmem'
              · rcases hc with hc | hc
                · exact absurd hc hemp
                · rw [hm] at hc; cases hc
              · exact hiff.mpr ⟨hmem', hc⟩

/-- Splitting a character list at its first `'='`. -/
theorem takeWhile_split_at_eq (cs : List Char) (h : cs.contains '=' = true) :
    cs = cs.takeWhile (fun c => c ≠ '=') ++
      '=' :: (cs.dropWhile (fun c => c ≠ '=')).tail := by
  induction cs with
  | nil => simp at h
  | cons c rest ih =>
    by_cases hc : c = '='
    · subst hc
      simp [List.takeWhile_cons, List.dropWhile_cons]
    · have hrest : rest.contains '=' = true := by
        rcases List.contains_eq_any_beq (c :: rest) '=' ▸ h with _
        simp only [List.contains_cons, Bool.or_eq_true, beq_iff_eq] at h
        rcases h with h | h
        · exact absurd h.symm hc
        · simpa [List.contains_eq_any_beq] using h
      have := ih hrest
      simp only [List.takeWhile_cons, List.dropWhile_cons, hc]
      simpa [hc] using congrArg (c :: ·) this

/-- Two strings with the same character data are equal (append unfolds). -/
theorem string_mk_append (a b : List Char) :
    (String.mk a) ++ (String.mk b) = String.mk (a ++ b) := rfl

/-- Lemma: `splitEq` succeeds exactly by cutting the name at its first `'='`:
success reassembles to the original name. -/
theorem splitEq_eq_some (name k v : String) (h : splitEq name = some (k, v)) :
    name = k ++ "=" ++ v := by
  obtain ⟨cs⟩ := name
  unfold splitEq at h
  by_cases hc : cs.contains '=' = true
  · rw [if_pos (by simpa [String.toList] using hc)] at h
    injection h with h'
    injection h' with hk hv
    subst hk
    subst hv
    have hsplit := takeWhile_split_at_eq cs hc
    calc (String.mk cs)
        = String.mk ((cs.takeWhile (fun c => c ≠ '=')) ++
            '=' :: (cs.dropWhile (fun c => c ≠ '=')).tail) := by rw [← hsplit]
      _ = String.mk (cs.takeWhile (fun c => c ≠ '=')) ++ String.mk ['='] ++
            String.mk ((cs.dropWhile (fun c => c ≠ '=')).tail) := by
            rw [string_mk_append, string_mk_append]
            simp
  · rw [if_neg (by simpa [String.toList] using hc)] at h
    cases h

/-- What a successful `discoverEntry` guarantees about its output. -/
theorem discoverEntry_some (tablePath : String) (e : FSEntry) (p : PartitionInfo)
    (h : discoverEntry tablePath e = some p) :
    e.isDir = true ∧
      splitEq e.name = some (p.partition_key, p.partition_value) ∧
      0 < p.file_count := by
  unfold discoverEntry at h
  cases hdir : e.isDir with
  | false => rw [hdir] at h; simp at h
  | true =>
    rw [hdir] at h
    simp only [Bool.not_true, Bool.false_eq_true, if_false] at h
    cases hsp : splitEq e.name with
    | none => rw [hsp] at h; cases h
    | some kv =>
      obtain ⟨k, v⟩ := kv
      rw [hsp] at h
      cases hpq : (parquetFilesOf e).isEmpty with
      | true => simp [hpq] at h
      | false =>
        simp [hpq] at h
        subst h
        refine ⟨rfl, rfl, ?_⟩
        have hne : parquetFilesOf e ≠ [] := fun hnil => by simp [hnil] at hpq
        simpa using List.length_pos.mpr hne

/-- A `put` that neither replaces nor evicts just pushes the new entry. -/
theorem Cache.put_fresh {α : Type} (c : Cache α) (fp : String) (v : α)
    (hfresh : fp ∉ c.entries.map Prod.fst)
    (hroom : c.entries.length < c.max_size) :
    c.put fp v = { c with entries := (fp, v) :: c.entries } := by
  rw [Cache.put]
  have hfilter : c.entries.filter (fun e => e.1 ≠ fp) = c.entries := by
    apply List.filter_eq_self.mpr
    intro a ha
    have hmem : a.1 ∈ c.entries.map Prod.fst := List.mem_map_of_mem Prod.fst ha
    have hne : a.1 ≠ fp := fun hcontra => hfresh (hcontra ▸ hmem)
    simpa using hne
  rw [hfilter, if_neg (by omega)]

/-- Filling a cache with fresh, distinct fingerprints within capacity
stacks them in recency order and evicts nothing. -/
theorem Cache.putAll_no_evict {α : Type} (fps : List (String × α)) (c : Cache α)
    (hlen : c.entries.length + fps.length ≤ c.max_size)
    (hdisj : ∀ f ∈ fps, f.1 ∉ c.entries.map Prod.fst)
    (hnodup : (fps.map Prod.fst).Nodup) :
    Cache.putAll c fps = { c with entries := fps.reverse ++ c.entries } := by
  induction fps generalizing c with
  | nil => simp [Cache.putAll]
  | cons f rest ih =>
    have hput : c.put f.1 f.2 = { c with entries := f :: c.entries } :=
      Cache.put_fresh c f.1 f.2 (hdisj f (List.mem_cons_self f rest)) (by simp at hlen; omega)
    have hstep : Cache.putAll c (f :: rest) = Cache.putAll (c.put f.1 f.2) rest := rfl
    rw [hstep, hput]
    have hnodup' : (rest.map Prod.fst).Nodup := (List.nodup_cons.mp hnodup).2
    have hnotin : f.1 ∉ rest.map Prod.fst := (List.nodup_cons.mp hnodup).1
    have hdisj' : ∀ g ∈ rest, g.1 ∉ (({ c with entries := f :: c.entries } : Cache α)).entries.map Prod.fst := by
      intro g hg
      simp only [List.map_cons, List.mem_cons]
      rintro (hgf | hgmem)
      · exact hnotin (hgf ▸ List.mem_map_of_mem Prod.fst hg)
      · exact hdisj g (List.mem_cons_of_mem f hg) hgmem
    have := ih ({ c with entries := f :: c.entries }) (by simp at hlen ⊢; omega) hdisj' hnodup'
    rw [this]
    simp [List.append_assoc]

/-! ## Claims -/

/-- Claim C1: in a prune call whose extraction is non-complex and nonempty, a
discovered partition is selected iff no extracted predicate targets its
partition key, or every extracted predicate on that key evaluates to true
against the raw directory value (logical AND).  In particular the spec
scenario `date=2024-11-01..07` with `date >= '2024-11-03' AND date <=
'2024-11-05'` selects exactly the partitions for 03, 04 and 05. -/
theorem filter_conjunction_semantics :
    (∀ (e : PredicateExtractionResult) (ps res : List PartitionInfo),
      e.is_complex = false → e.predicates ≠ [] →
      pruneSelect e ps = .ok res →
      ∀ p ∈ ps,
        (p ∈ res ↔
          (e.get_partition_predicates p.partition_key = [] ∨
            ∀ q ∈ e.get_partition_predicates p.partition_key,
              q.evaluate (.str p.partition_value) = .ok true))) ∧
    (prune (some exampleSalesWhere) "sales" "./data" (some exampleSalesFS)).map
        (fun r => (r.partitions_to_scan.map PartitionInfo.partition_value,
                   r.partitions_scanned, r.total_partitions)) =
      .ok (["2024-11-03", "2024-11-04", "2024-11-05"], 3, 7) := by
  constructor
  · intro e ps res hcx hne h p hp
    have hsel : filterPartitions ps e = .ok res := by
      rw [pruneSelect, if_neg] at h
      · exact h
      · simp [hcx, List.isEmpty_eq_true, hne]
    rw [filterPartitions_mem_iff ps e res hsel p]
    constructor
    · rintro ⟨_, hc | hc⟩
      · exact Or.inl (List.isEmpty_eq_true.mp hc)
      · exact Or.inr ((partitionMatches_ok_true_iff p _).mp hc)
    · intro hc
      refine ⟨hp, ?_⟩
      rcases hc with hc | hc
      · exact Or.inl (by simp [hc])
      · exact Or.inr ((partitionMatches_ok_true_iff p _).mpr hc)
  · rfl

/-- Claim C1 witness: the general conjunct applied to the concrete spec
scenario: the `2024-11-01` partition is selected iff its applicable
predicates all pass (they do not). -/
theorem filter_conjunction_semantics_witness :
    ({ path := "p", partition_key := "date", partition_value := "2024-11-01",
       size_bytes := 100, file_count := 1 } : PartitionInfo) ∈
        ([] : List PartitionInfo) ↔
      (PredicateExtractionResult.get_partition_predicates
          ⟨[{ column := "date", operator := .GTE, value := .str "2024-11-03" }],
            "sales", false⟩ "date" = [] ∨
        ∀ q ∈ PredicateExtractionResult.get_partition_predicates
          ⟨[{ column := "date", operator := .GTE, value := .str "2024-11-03" }],
            "sales", false⟩ "date",
          q.evaluate (.str "2024-11-01") = .ok true) :=
  filter_conjunction_semantics.1
    ⟨[{ column := "date", operator := .GTE, value := .str "2024-11-03" }], "sales", false⟩
    [{ path := "p", partition_key := "date", partition_value := "2024-11-01",
       size_bytes := 100, file_count := 1 }]
    [] rfl (by simp) rfl
    { path := "p", partition_key := "date", partition_value := "2024-11-01",
      size_bytes := 100, file_count := 1 }
    (by simp)

/-- Claim C2: when the extraction is complex or empty, selection returns the
entire discovered partition list unchanged. -/
theorem scan_all_when_complex_or_no_predicates
    (e : PredicateExtractionResult) (ps : List PartitionInfo)
    (h : e.is_complex = true ∨ e.predicates = []) :
    pruneSelect e ps = .ok ps := by
  rw [pruneSelect]
  rcases h with h | h
  · rw [if_pos (by simp [h])]
  · rw [if_pos (by simp [h])]

/-- Claim C2 witness: a complex extraction (OR in the clause) keeps both
partitions of a two-partition table. -/
theorem scan_all_when_complex_or_no_predicates_witness :
    pruneSelect
      ⟨[{ column := "date", operator := .EQ, value := .str "2024-11-01" }], "sales", true⟩
      [{ path := "a", partition_key := "date", partition_value := "2024-11-01",
         size_bytes := 1, file_count := 1 },
       { path := "b", partition_key := "date", partition_value := "2024-11-02",
         size_bytes := 1, file_count := 1 }] =
      .ok
      [{ path := "a", partition_key := "date", partition_value := "2024-11-01",
         size_bytes := 1, file_count := 1 },
       { path := "b", partition_key := "date", partition_value := "2024-11-02",
         size_bytes := 1, file_count := 1 }] :=
  scan_all_when_complex_or_no_predicates _ _ (Or.inl rfl)

/-- Claim C3: the claim says `evaluate` never raises; in the source the type
conversion runs *outside* the `try` block, so a coercion failure escapes:
with `sql_type = "INT"` and the non-numeric comparison value `"abc"`,
`int("abc")` raises and `evaluate` raises with it (modelled `.error ()`)
instead of returning the conservative `True`. -/
theorem evaluate_coercion_failure_raises :
    Predicate.evaluate
      { column := "x", operator := .EQ, value := .str "abc", sql_type := some "INT" }
      (.str "10") = .error () := rfl

/-- Claim C4: a missing WHERE clause yields the empty, non-complex result,
and `is_complex` is set exactly when a disjunction or negation node occurs
anywhere in the walked clause tree. -/
theorem extract_predicates_empty_and_complexity (tn : Option String) :
    (extractPredicates Option.none tn).predicates = [] ∧
    (extractPredicates Option.none tn).is_complex = false ∧
    ∀ condition : SqlExpr,
      ((extractPredicates (some condition) tn).is_complex = true ↔
        ∃ n ∈ nodes condition,
          (∃ l r, n = SqlExpr.or l r) ∨ (∃ x, n = SqlExpr.not x)) := by
  refine ⟨rfl, rfl, fun condition => ?_⟩
  show hasOrNot condition = true ↔ _
  rw [hasOrNot, List.any_eq_true]
  constructor
  · rintro ⟨n, hn, hcase⟩
    cases n <;>
      first
        | exact ⟨_, hn, Or.inl ⟨_, _, rfl⟩⟩
        | exact ⟨_, hn, Or.inr ⟨_, rfl⟩⟩
        | exact absurd hcase (by simp [isOrNotNode])
  · rintro ⟨n, hn, hcase⟩
    refine ⟨n, hn, ?_⟩
    rcases hcase with ⟨l, r, rfl⟩ | ⟨x, rfl⟩ <;> rfl

/-- On every tabled comparison the extractor defers to `_build_predicate`. -/
theorem extractSimple_mkComp (k : CompKind) (l r : SqlExpr) (tf : Option String) :
    extractSimplePredicates (mkComp k l r) tf =
      (buildPredicate l r (opOfKind k) tf).toList := by
  cases k <;> rfl

/-- Claim C5: extraction flattens AND chains; only the closed comparison
table with a column on the left yields a predicate (other comparison kinds
such as LIKE yield nothing, without error); a column qualified to another
table is silently dropped; literal/tuple/NULL/boolean right-hand sides
become the value and every other right-hand shape becomes its SQL text. -/
theorem extraction_flattening_and_values :
    (∀ l r tf, extractSimplePredicates (.and l r) tf =
        extractSimplePredicates l tf ++ extractSimplePredicates r tf) ∧
    (∀ l r tf, extractSimplePredicates (.like l r) tf = []) ∧
    (∀ k l r tf, isColumnExpr l = false →
        extractSimplePredicates (mkComp k l r) tf = []) ∧
    (∀ k name tbl ty r tf, tbl ≠ tf →
        extractSimplePredicates
          (mkComp k (.column name (some tbl) ty) r) (some tf) = []) ∧
    (∀ k name tbl ty r tf, (tbl = Option.none ∨ tbl = some tf) →
        extractSimplePredicates (mkComp k (.column name tbl ty) r) (some tf) =
          [{ column := name, operator := opOfKind k,
             value := extractValue r, sql_type := ty }]) ∧
    (∀ v, extractValue (.lit v) = .str v) ∧
    (∀ es, extractValue (.tuple es) = .list (extractValueList es)) ∧
    (extractValue .null = .none) ∧
    (∀ b, extractValue (.boolean b) = .bool b) ∧
    (∀ e, isValueLeaf e = false → extractValue e = .str (textOf e)) := by
  refine ⟨fun l r tf => rfl, fun l r tf => rfl, ?_, ?_, ?_,
          fun v => rfl, fun es => rfl, rfl, fun b => rfl, ?_⟩
  · intro k l r tf h
    rw [extractSimple_mkComp]
    cases l <;> first | rfl | (simp [isColumnExpr] at h)
  · intro k name tbl ty r tf h
    rw [extractSimple_mkComp]
    simp [buildPredicate, h]
  · intro k name tbl ty r tf h
    rw [extractSimple_mkComp]
    rcases h with h | h <;> subst h <;> simp [buildPredicate]
  · intro e h
    cases e <;> first | rfl | (simp [isValueLeaf] at h)

/-- Claim C5 witness: the conjuncts at concrete inputs: an AND of two
comparisons flattens; `a LIKE 'x'` extracts nothing; a literal-left
comparison extracts nothing; `other.c = 'v'` is dropped for table `t`;
`t.c = 'v'` extracts one predicate; a function right-hand side is captured
as its text. -/
theorem extraction_flattening_and_values_witness :
    (extractSimplePredicates
        (.and (.eq (.column "a" Option.none Option.none) (.lit "1"))
              (.gt (.column "b" Option.none Option.none) (.lit "2"))) Option.none =
      extractSimplePredicates
        (.eq (.column "a" Option.none Option.none) (.lit "1")) Option.none ++
      extractSimplePredicates
        (.gt (.column "b" Option.none Option.none) (.lit "2")) Option.none) ∧
    (extractSimplePredicates
        (.like (.column "a" Option.none Option.none) (.lit "x")) Option.none = []) ∧
    (extractSimplePredicates (mkComp .keq (.lit "3") (.lit "4")) Option.none = []) ∧
    (extractSimplePredicates
        (mkComp .keq (.column "c" (some "other") Option.none) (.lit "v"))
        (some "t") = []) ∧
    (extractSimplePredicates
        (mkComp .keq (.column "c" (some "t") Option.none) (.lit "v")) (some "t") =
      [{ column := "c", operator := .EQ, value := .str "v",
         sql_type := Option.none }]) ∧
    (extractValue (.func "now" []) = .str (textOf (.func "now" []))) :=
  ⟨extraction_flattening_and_values.1 _ _ _,
   extraction_flattening_and_values.2.1 _ _ _,
   extraction_flattening_and_values.2.2.1 .keq (.lit "3") (.lit "4") Option.none rfl,
   extraction_flattening_and_values.2.2.2.1 .keq "c" "other" Option.none (.lit "v") "t"
     (by decide),
   extraction_flattening_and_values.2.2.2.2.1 .keq "c" (some "t") Option.none (.lit "v")
     "t" (Or.inr rfl),
   extraction_flattening_and_values.2.2.2.2.2.2.2.2.2 (.func "now" []) rfl⟩

/-- Claim C6: discovery fails exactly when the table root does not exist
(the pruner's only hard failure); every discovered partition comes from an
immediate subdirectory whose name is literally `key=value` for its key and
raw value, and carries at least one data file. -/
theorem discovery_failure_and_membership (tablePath : String) :
    (∀ fs : Option (List FSEntry),
      (∃ err, discoverPartitions tablePath fs = .error err) ↔ fs = Option.none) ∧
    (∀ (entries : List FSEntry) (res : List PartitionInfo),
      discoverPartitions tablePath (some entries) = .ok res →
      ∀ p ∈ res,
        (∃ e ∈ entries, e.isDir = true ∧
          e.name = p.partition_key ++ "=" ++ p.partition_value) ∧
        0 < p.file_count) := by
  constructor
  · intro fs
    constructor
    · rintro ⟨err, herr⟩
      cases fs with
      | none => rfl
      | some entries => rw [discoverPartitions] at herr; cases herr
    · rintro rfl
      exact ⟨(), rfl⟩
  · intro entries res h p hp
    rw [discoverPartitions] at h
    injection h with h'
    subst h'
    obtain ⟨e, he, hsome⟩ := List.mem_filterMap.mp hp
    obtain ⟨hdir, hsp, hcount⟩ := discoverEntry_some tablePath e p hsome
    exact ⟨⟨e, he, hdir, splitEq_eq_some e.name _ _ hsp⟩, hcount⟩

/-- Claim C6 witness: over the spec example filesystem, discovery under an
existing root succeeds and the claim's conclusions hold for the first
discovered partition; a missing root is exactly the error case. -/
theorem discovery_failure_and_membership_witness :
    ((∃ err, discoverPartitions "./data/sales" Option.none = .error err) ↔
      (Option.none : Option (List FSEntry)) = Option.none) ∧
    ((∃ e ∈ exampleSalesFS, e.isDir = true ∧
        e.name = "date" ++ "=" ++ "2024-11-01") ∧
      0 < (1 : Nat)) :=
  ⟨(discovery_failure_and_membership "./data/sales").1 Option.none,
   (discovery_failure_and_membership "./data/sales").2 exampleSalesFS
     (exampleSalesFS.filterMap (discoverEntry "./data/sales")) rfl
     { path := "./data/sales/date=2024-11-01", partition_key := "date",
       partition_value := "2024-11-01", size_bytes := 100, file_count := 1 }
     (by decide)⟩

/-- Claim C7: the derived metrics of a `PruningResult`: the pruning ratio is
`1 - scanned/total` (whenever `total` is nonzero, so the quotient is
meaningful; the source returns `0.0` for an empty table), and the speedup
estimate is `total/scanned`, defined as `1.0` when `scanned = 0`. -/
theorem pruning_result_metrics (r : PruningResult) :
    (r.total_partitions ≠ 0 →
      r.pruning_ratio =
        1 - ((r.partitions_scanned : ℚ) / (r.total_partitions : ℚ))) ∧
    (r.partitions_scanned = 0 → r.speedup_estimate = 1) ∧
    (r.partitions_scanned ≠ 0 →
      r.speedup_estimate =
        (r.total_partitions : ℚ) / (r.partitions_scanned : ℚ)) := by
  refine ⟨fun h => ?_, fun h => ?_, fun h => ?_⟩
  · rw [PruningResult.pruning_ratio, if_neg h]
  · rw [PruningResult.speedup_estimate, if_pos h]
  · rw [PruningResult.speedup_estimate, if_neg h]

/-- Claim C7 witness: the metric formulas applied to a concrete result
scanning 1 of 7 partitions. -/
theorem pruning_result_metrics_witness :
    ({ partitions_to_scan :=
        [{ path := "p", partition_key := "date", partition_value := "2024-11-03",
           size_bytes := 100, file_count := 1 }],
       total_partitions := 7, total_size_bytes := 100,
       total_files := 1 } : PruningResult).pruning_ratio =
      1 - ((({ partitions_to_scan :=
                 [{ path := "p", partition_key := "date",
                    partition_value := "2024-11-03",
                    size_bytes := 100, file_count := 1 }],
               total_partitions := 7, total_size_bytes := 100,
               total_files := 1 } : PruningResult).partitions_scanned : ℚ) /
        ((7 : Nat) : ℚ)) :=
  (pruning_result_metrics _).1 (by decide)

/-- Claim C8: the selected partitions of a prune call are always a subset of
the partitions discovered in that same call. -/
theorem prune_select_subset (e : PredicateExtractionResult)
    (ps res : List PartitionInfo) (h : pruneSelect e ps = .ok res) :
    res ⊆ ps := by
  rw [pruneSelect] at h
  by_cases hc : (e.predicates.isEmpty || e.is_complex) = true
  · rw [if_pos hc] at h
    injection h with h'
    subst h'
    exact fun p hp => hp
  · rw [if_neg hc] at h
    intro p hp
    exact ((filterPartitions_mem_iff ps e res h p).mp hp).1

/-- Claim C8 witness: with a `date >= '2024-11-03'` predicate over two
partitions, selection keeps only the later one, a subset of the input. -/
theorem prune_select_subset_witness :
    [({ path := "b", partition_key := "date", partition_value := "2024-11-04",
        size_bytes := 1, file_count := 1 } : PartitionInfo)] ⊆
      [{ path := "a", partition_key := "date", partition_value := "2024-11-01",
         size_bytes := 1, file_count := 1 },
       { path := "b", partition_key := "date", partition_value := "2024-11-04",
         size_bytes := 1, file_count := 1 }] :=
  prune_select_subset
    ⟨[{ column := "date", operator := .GTE, value := .str "2024-11-03" }], "sales", false⟩
    [{ path := "a", partition_key := "date", partition_value := "2024-11-01",
       size_bytes := 1, file_count := 1 },
     { path := "b", partition_key := "date", partition_value := "2024-11-04",
       size_bytes := 1, file_count := 1 }]
    [{ path := "b", partition_key := "date", partition_value := "2024-11-04",
       size_bytes := 1, file_count := 1 }]
    rfl

/-- Pairing fingerprints with a value and projecting back is the identity. -/
theorem map_fst_pair {β : Type} (v : β) (l : List String) :
    (l.map (fun f => (f, v))).map Prod.fst = l := by
  induction l with
  | nil => rfl
  | cons x xs ih => simp only [List.map_cons, ih]

/-- Lemma: `putAll` distributes over list append. -/
theorem Cache.putAll_append {α : Type} (c : Cache α) (l₁ l₂ : List (String × α)) :
    Cache.putAll c (l₁ ++ l₂) = Cache.putAll (Cache.putAll c l₁) l₂ := by
  simp [Cache.putAll, List.foldl_append]

/-- Claim C9 (modelled from the spec, §4.4): inserting N+1 distinct
fingerprints into an empty cache of capacity N > 0 leaves exactly the N
most recently inserted entries — so never more than N resident, the
first-inserted (least-recently-used) fingerprint is the one evicted — and
the eviction counter is incremented to 1. -/
theorem cache_capacity_eviction {α : Type} (N : Nat) (hN : 0 < N)
    (fps : List String) (v : α)
    (hlen : fps.length = N + 1) (hnodup : fps.Nodup) :
    ((Cache.empty α N).putAll (fps.map (fun f => (f, v)))).entries.map Prod.fst =
        fps.tail.reverse ∧
    ((Cache.empty α N).putAll (fps.map (fun f => (f, v)))).entries.length ≤ N ∧
    ((Cache.empty α N).putAll (fps.map (fun f => (f, v)))).evictions = 1 ∧
    ∀ hd, fps.head? = some hd →
      hd ∉ ((Cache.empty α N).putAll (fps.map (fun f => (f, v)))).entries.map
        Prod.fst := by
  rcases List.eq_nil_or_concat fps with rfl | ⟨fs, g, rfl⟩
  · simp at hlen
  · simp only [List.concat_eq_append] at hlen hnodup ⊢
    have hfsN : fs.length = N := by simpa using hlen
    have hfsne : fs ≠ [] := by
      intro h
      rw [h] at hfsN
      simp at hfsN
      omega
    obtain ⟨a, fs', rfl⟩ := List.exists_cons_of_ne_nil hfsne
    have hfsN' : fs'.length + 1 = N := by simpa using hfsN
    have hnd := hnodup
    rw [List.nodup_append] at hnd
    obtain ⟨hnd1, _, hdisj⟩ := hnd
    have hgnotin : g ∉ a :: fs' := fun hg => hdisj hg (by simp)
    have hfill := Cache.putAll_no_evict ((a :: fs').map (fun f => (f, v)))
        (Cache.empty α N)
        (by simp [Cache.empty]; omega)
        (by simp [Cache.empty])
        (by rw [map_fst_pair]; exact hnd1)
    have hput : (Cache.empty α N).putAll (((a :: fs') ++ [g]).map (fun f => (f, v))) =
        { max_size := N,
          entries := (g, v) :: (fs'.map (fun f => (f, v))).reverse,
          evictions := 1 } := by
      rw [List.map_append, Cache.putAll_append, hfill]
      show Cache.put _ g v = _
      rw [Cache.put]
      have hfilter : (((a :: fs').map (fun f => (f, v))).reverse).filter
          (fun e => e.1 ≠ g) = ((a :: fs').map (fun f => (f, v))).reverse := by
        apply List.filter_eq_self.mpr
        intro e he
        rcases List.mem_reverse.mp he with hmem
        obtain ⟨f, hf, rfl⟩ := List.mem_map.mp hmem
        have : f ≠ g := fun hc => hgnotin (hc ▸ hf)
        simpa using this
      simp only [Cache.empty, List.append_nil] at hfilter ⊢
      rw [hfilter, if_pos (by simp; omega)]
      simp [List.reverse_cons, List.dropLast_concat]
    rw [hput]
    have hane : a ≠ g := fun hc => hgnotin (hc ▸ List.mem_cons_self a fs')
    have hanotin : a ∉ fs' := (List.nodup_cons.mp hnd1).1
    refine ⟨?_, ?_, rfl, ?_⟩
    · simp only [List.map_cons, List.map_reverse, map_fst_pair, List.reverse_append,
                  List.reverse_cons, List.reverse_nil, List.nil_append, List.cons_append,
                  List.tail_cons, List.singleton_append]
    · simp
      omega
    · intro hd hhd
      have hda : a = hd := by simpa using hhd
      subst hda
      simp only [List.map_cons, List.map_reverse, map_fst_pair, List.mem_cons,
                 List.mem_reverse, not_or]
      exact ⟨hane, fun hc => hanotin hc⟩

/-- Claim C9 witness: capacity 2, fingerprints `a, b, c`: only `c, b`
remain (in recency order), `a` — the least recently used — is gone, and
one eviction is counted. -/
theorem cache_capacity_eviction_witness :
    ((Cache.empty Nat 2).putAll
        (["a", "b", "c"].map (fun f => (f, 0)))).entries.map Prod.fst =
        ["a", "b", "c"].tail.reverse ∧
    ((Cache.empty Nat 2).putAll
        (["a", "b", "c"].map (fun f => (f, 0)))).entries.length ≤ 2 ∧
    ((Cache.empty Nat 2).putAll
        (["a", "b", "c"].map (fun f => (f, 0)))).evictions = 1 ∧
    ∀ hd, ["a", "b", "c"].head? = some hd →
      hd ∉ ((Cache.empty Nat 2).putAll
        (["a", "b", "c"].map (fun f => (f, 0)))).entries.map Prod.fst :=
  cache_capacity_eviction 2 (by decide) ["a", "b", "c"] 0 (by decide) (by decide)

/-- Claim C10 counterexample: the claim says `evaluate` returns true for a
LIKE predicate at *every* candidate value; at a LIKE predicate whose
declared type is `INT` and whose value is not numeric, the coercion (run
before the `try` block) raises instead, so the call does not return true. -/
theorem noop_operator_counterexample :
    Predicate.evaluate
        { column := "x", operator := .LIKE, value := .str "a", sql_type := some "INT" }
        (.str "v") ≠ .ok true := by
  have he : Predicate.evaluate
      { column := "x", operator := .LIKE, value := .str "a", sql_type := some "INT" }
      (.str "v") = .error () := rfl
  rw [he]
  exact fun h => Except.noConfusion h

/-- Claim C10 (amended): whenever `evaluate` returns at all (the coercion
did not raise), a LIKE, IS NULL or IS NOT NULL predicate yields true —
these operators can never exclude a partition. -/
theorem noop_operators_conservative (p : Predicate) (v : PyVal) (b : Bool)
    (hop : p.operator = .LIKE ∨ p.operator = .IS_NULL ∨ p.operator = .IS_NOT_NULL)
    (h : p.evaluate v = .ok b) : b = true := by
  obtain ⟨c, op, val, st⟩ := p
  have happ : ∀ x y, applyOp op x y = true := by
    rcases hop with h1 | h1 | h1 <;> (subst h1; intro x y; rfl)
  cases st with
  | none =>
    simp only [Predicate.evaluate] at h
    injection h with h'
    rw [← h', happ]
  | some t =>
    simp only [Predicate.evaluate] at h
    by_cases ht : t = ""
    · rw [if_pos ht] at h
      injection h with h'
      rw [← h', happ]
    · rw [if_neg ht] at h
      cases hc : convertTypes t v val with
      | none => rw [hc] at h; cases h
      | some pc =>
        obtain ⟨pv, cv⟩ := pc
        rw [hc] at h
        injection h with h'
        rw [← h', happ]

/-- Claim C10 (amended) witness: an untyped LIKE predicate evaluates to
true at a concrete candidate value, and the amended claim applies to it. -/
theorem noop_operators_conservative_witness :
    Predicate.evaluate
        { column := "x", operator := .LIKE, value := .str "a",
          sql_type := Option.none } (.str "v") = .ok true ∧ true = true :=
  ⟨rfl,
   noop_operators_conservative
     { column := "x", operator := .LIKE, value := .str "a", sql_type := Option.none }
     (.str "v") true (Or.inl rfl) rfl⟩

end IRouter
